import Mathlib

/-!
Shallow embedding of `src/ycb.tsx` (your-commonbase/raycast), a Raycast
search command over a personal knowledge base.  JavaScript strings are
modelled as `String`/`List Char` (UTF-16 code-unit counting coincides with
code-point counting on the BMP inputs considered here).  Library functions
of the JavaScript runtime that the component calls (`String.prototype.replace`
with a string pattern, `String.prototype.includes`, `String.prototype.trim`,
`String.prototype.substring`, the WHATWG `URL` constructor) are modelled
explicitly below; everything else is translated directly from the source.
-/

namespace YCB

/-- Model of JavaScript `pat.isPrefix-check` used by `replace`/`includes`:
`startsWith pat l` is true iff `pat` is an initial segment of `l`. -/
def startsWith : List Char → List Char → Bool
  | [], _ => true
  | _ :: _, [] => false
  | p :: ps, c :: cs => p == c && startsWith ps cs

/-- Model of JavaScript `l.includes(pat)`: `pat` occurs as a contiguous
substring of `l`. -/
def containsSub (pat : List Char) : List Char → Bool
  | [] => pat.isEmpty
  | c :: rest => startsWith pat (c :: rest) || containsSub pat rest

/-- Model of JavaScript `s.replace(pat, '')` with a string pattern:
deletes the first (leftmost) occurrence of `pat`, if any. -/
def removeFirst (pat : List Char) : List Char → List Char
  | [] => []
  | c :: rest =>
    if startsWith pat (c :: rest) then (c :: rest).drop pat.length
    else c :: removeFirst pat rest

/-- Model of the ECMAScript WhiteSpace and LineTerminator character classes
used by `String.prototype.trim`. -/
def jsWhitespace (c : Char) : Bool :=
  ['\t', '\n', '\x0B', '\x0C', '\r', ' ', '\u00A0', '\u1680',
   '\u2000', '\u2001', '\u2002', '\u2003', '\u2004', '\u2005', '\u2006',
   '\u2007', '\u2008', '\u2009', '\u200A', '\u2028', '\u2029', '\u202F',
   '\u205F', '\u3000', '\uFEFF'].contains c

/-- Model of JavaScript `s.trim()`. -/
def jsTrim (l : List Char) : List Char :=
  ((l.dropWhile jsWhitespace).reverse.dropWhile jsWhitespace).reverse

/-- Scheme characters accepted by the WHATWG URL parser after the first
letter. -/
def schemeChar (c : Char) : Bool :=
  c.isAlpha || c.isDigit || c == '+' || c == '-' || c == '.'

/-- Scans the scheme of a URL string: returns `(scheme, rest beyond ':')`
on success. -/
def schemeSplit (acc : List Char) : List Char → Option (List Char × List Char)
  | [] => none
  | c :: cs =>
    if c == ':' then some (acc.reverse, cs)
    else if schemeChar c then schemeSplit (c :: acc) cs
    else none

/-- A URL string must begin with an ASCII letter followed by scheme
characters and a colon; otherwise the WHATWG parser fails. -/
def parseScheme (l : List Char) : Option (List Char × List Char) :=
  match l with
  | [] => none
  | c :: _ => if c.isAlpha then schemeSplit [] l else none

/-- ASCII lowercasing of one character (used for the case-insensitive
scheme comparison of the WHATWG parser). -/
def lowerChar (c : Char) : Char :=
  if 65 ≤ c.toNat ∧ c.toNat ≤ 90 then Char.ofNat (c.toNat + 32) else c

/-- The "special" WHATWG schemes whose URLs carry a mandatory, non-empty
host.  (`file:` is treated like a non-special scheme by this model.) -/
def isSpecialScheme (s : List Char) : Bool :=
  let ls := s.map lowerChar
  ls == "http".toList || ls == "https".toList || ls == "ws".toList ||
  ls == "wss".toList || ls == "ftp".toList

/-- Forbidden host code points of the WHATWG URL standard (with `%` also
rejected: percent-decoding of hostnames is not modelled, nor is punycode
or case normalization of the host). -/
def forbiddenHostChar (c : Char) : Bool :=
  c.toNat < 32 || c.toNat == 127 || c == ' ' || c == '#' || c == '/' ||
  c == ':' || c == '<' || c == '>' || c == '?' || c == '@' || c == '[' ||
  c == '\\' || c == ']' || c == '^' || c == '|' || c == '%'

/-- The part of an authority that follows the last `@` (i.e. with any
userinfo stripped). -/
def afterLastAt (l : List Char) : List Char :=
  (l.reverse.takeWhile (fun c => c != '@')).reverse

/-- Extracts and validates the host (and port) out of an authority
substring, as the WHATWG host parser does.  `allowEmpty` distinguishes
non-special schemes (empty host permitted) from special ones. -/
def hostFromAuthority (auth : List Char) (allowEmpty : Bool) : Option (List Char) :=
  if (afterLastAt auth).takeWhile (fun c => c != ':') = [] then
    (if allowEmpty then some [] else none)
  else if ((afterLastAt auth).takeWhile (fun c => c != ':')).any forbiddenHostChar then
    none
  else
    match (afterLastAt auth).dropWhile (fun c => c != ':') with
    | [] => some ((afterLastAt auth).takeWhile (fun c => c != ':'))
    | _ :: ds =>
      if ds.all Char.isDigit then some ((afterLastAt auth).takeWhile (fun c => c != ':'))
      else none

/-- Characters ending the authority of a special-scheme URL. -/
def authorityEnd (c : Char) : Bool :=
  c == '/' || c == '\\' || c == '?' || c == '#'

/-- Host extraction for special schemes: any run of slashes after the
colon is skipped, then the authority runs to the next delimiter. -/
def parseSpecialHost (rest : List Char) : Option (List Char) :=
  let restTrimmed := rest.dropWhile (fun c => c == '/' || c == '\\')
  hostFromAuthority (restTrimmed.takeWhile (fun c => !authorityEnd c)) false

/-- Host extraction for non-special schemes: a host exists only after a
literal `//`; otherwise the remainder is an opaque path and the hostname
is empty. -/
def parseNonSpecialHost (rest : List Char) : Option (List Char) :=
  match rest with
  | '/' :: '/' :: r =>
    hostFromAuthority (r.takeWhile (fun c => !(c == '/' || c == '?' || c == '#'))) true
  | _ => some []

/-- Model of `new URL(s).hostname` of the WHATWG URL standard: `none`
models the constructor throwing.  Percent-decoding, punycode, host case
normalization, IPv6 literals and port-range checks are not modelled; on
the plain ASCII inputs appearing in this development the model agrees
with the standard. -/
def urlHostname (l : List Char) : Option (List Char) :=
  match parseScheme l with
  | none => none
  | some (sch, rest) =>
    if isSpecialScheme sch then parseSpecialHost rest
    else parseNonSpecialHost rest

/-- The knowledge base's own domain, tested for by `getMetadataDisplay`. -/
def ycbL : List Char := "yourcommonbase.com".toList

/-- Source-label derivation of `getMetadataDisplay` (src/ycb.tsx:234-251)
on the character list of a non-absent author string:
`if (metadata.author.includes('yourcommonbase.com')) return 'Your Commonbase';
 const url = new URL(metadata.author); return url.hostname.replace('www.', '');`
with the catch-arm re-checking the domain (dead, since `includes` cannot
throw) and then truncating:
`metadata.author.length > 30 ? metadata.author.substring(0, 30) + '...' : metadata.author`.
The `a = []` arm is the function's `if (!metadata.author) return ""` guard,
which JavaScript truthiness also applies to the empty string. -/
def sourceLabelL (a : List Char) : List Char :=
  if a = [] then []
  else if containsSub ycbL a then "Your Commonbase".toList
  else
    match urlHostname a with
    | some host => removeFirst "www.".toList host
    | none => if 30 < a.length then a.take 30 ++ "...".toList else a

/-- Optional structured fields of an entry (interface `SearchResult.metadata`,
src/ycb.tsx:16-22). -/
structure Metadata where
  title : Option String := none
  author : Option String := none
  type : Option String := none
  ogDescription : Option String := none
  ogImages : Option (List String) := none
deriving DecidableEq

/-- Highlighted value wrapper (src/ycb.tsx:24-30). -/
structure HighlightValue where
  value : String
deriving DecidableEq

/-- Highlight markup attached to lexical hits (src/ycb.tsx:24-30). -/
structure HighlightResult where
  data : HighlightValue
  title : Option HighlightValue := none
  author : Option HighlightValue := none
deriving DecidableEq

/-- One knowledge-base entry (interface `SearchResult`, src/ycb.tsx:13-32).
The JavaScript `similarity` number is modelled as a rational. -/
structure SearchResult where
  id : String
  data : String
  metadata : Metadata := {}
  similarity : Option Rat := none
  highlightResult : Option HighlightResult := none
  image : Option String := none
deriving DecidableEq

/-- `getMetadataDisplay` (src/ycb.tsx:234-251) on a whole metadata record. -/
def getMetadataDisplay (m : Metadata) : String :=
  String.mk (sourceLabelL ((m.author.getD "").toList))

/-- The source-label derivation viewed as a function on author strings,
for stating algebraic properties of `getMetadataDisplay`. -/
def sourceLabel (a : String) : String :=
  getMetadataDisplay { author := some a }

/-- `getEntryUrl` (src/ycb.tsx:254-257):
`preferences.ycbUrl.replace('/backend', '') + "/dashboard/entry/" + id`. -/
def getEntryUrl (ycbUrl id : String) : String :=
  String.mk (removeFirst "/backend".toList ycbUrl.toList ++
    "/dashboard/entry/".toList ++ id.toList)

/-- Source-label derivation following the spec claim C1 word for word:
the hostname is returned "with a leading `www.` stripped" (only an
initial occurrence is removed).  The other arms follow the code. -/
def specLabelL (a : List Char) : List Char :=
  if containsSub ycbL a then "Your Commonbase".toList
  else
    match urlHostname a with
    | some host => if startsWith "www.".toList host then host.drop 4 else host
    | none => if 30 < a.length then a.take 30 ++ "...".toList else a

/-- Spec claim C1 as literally stated, lifted to a metadata record. -/
def specSourceLabel (m : Metadata) : String :=
  match m.author with
  | none => ""
  | some a => String.mk (specLabelL a.toList)

/-- Source-label derivation following the amended claim C1: the first
occurrence of `www.` anywhere in the hostname is removed, and the
truncation arm applies only to strings longer than 30 characters. -/
def specLabelAmendedL (a : List Char) : List Char :=
  if containsSub ycbL a then "Your Commonbase".toList
  else
    match urlHostname a with
    | some host => removeFirst "www.".toList host
    | none => if 30 < a.length then a.take 30 ++ "...".toList else a

/-- Amended claim C1 lifted to a metadata record. -/
def specSourceLabelAmended (m : Metadata) : String :=
  match m.author with
  | none => ""
  | some a => String.mk (specLabelAmendedL a.toList)

/-- Model of the JavaScript expression `opt || fallback` on an optional
string: `undefined` and the empty string are both falsy. -/
def jsOrElse (opt : Option String) (fallback : String) : String :=
  match opt with
  | some t => if t = "" then fallback else t
  | none => fallback

/-- Displayed list-item title (src/ycb.tsx:314, 371):
`result.metadata?.title || result.data.substring(0, 60) + "..."`. -/
def displayTitle (r : SearchResult) : String :=
  jsOrElse r.metadata.title (String.mk (r.data.toList.take 60 ++ "...".toList))

/-- Displayed list-item subtitle (src/ycb.tsx:315, 372):
`result.metadata?.ogDescription || result.data.substring(0, 100) + "..."`. -/
def displaySubtitle (r : SearchResult) : String :=
  jsOrElse r.metadata.ogDescription (String.mk (r.data.toList.take 100 ++ "...".toList))

/-- Toast styles of the host UI toolkit that the component uses. -/
inductive ToastStyle where
  | failure
  | success
  | animated
deriving DecidableEq

/-- Observable side effects of the search pipeline: outgoing network
requests, toast notifications and console diagnostics.  A network call is
represented by the effect that issues it, so "no network call" is
expressed as the absence of the corresponding effect. -/
inductive Effect where
  | meiliQuery (indexName query : String) (hitsPerPage : Nat)
  | semanticPost (text : String) (matchLimit : Nat) (matchThreshold : Rat)
  | fetchImagesByIDs (ids : List String)
  | showToast (style : ToastStyle) (title message : String)
  | consoleError (msg : String)
deriving DecidableEq

/-- Outcome of the awaited MeiliSearch index query: either the hit list of
`searchResults.results[0].hits`, or any thrown error (transport or index
failure). -/
inductive MeiliOutcome where
  | ok (hits : List SearchResult)
  | err

/-- Outcome of the awaited semantic `/search` POST: either the parsed
response array, or the single error path (`!response.ok`, i.e. any
non-2xx status regardless of code or body, as well as transport failure
or a malformed body). -/
inductive SemanticOutcome where
  | ok (results : List SearchResult)
  | httpError

/-- Image hydration of one entry (src/ycb.tsx:142-150 and 189-198): an
entry whose `metadata.type` is `"image"` gets `image` set from the
`fetchImage` call (whose own failures yield `undefined`, modelled by the
oracle returning `none`); every other entry is returned unchanged with no
Image Resolver call. -/
def hydrateEntry (imgs : String → Option String) (r : SearchResult) :
    SearchResult × List Effect :=
  if r.metadata.type = some "image" then
    ({ r with image := imgs r.id }, [Effect.fetchImagesByIDs [r.id]])
  else (r, [])

/-- Concurrent image hydration of a whole batch (`Promise.all` over the
hits); hit order is preserved. -/
def hydrate (imgs : String → Option String) (rs : List SearchResult) :
    List SearchResult × List Effect :=
  (rs.map (fun r => (hydrateEntry imgs r).1),
   rs.flatMap (fun r => (hydrateEntry imgs r).2))

/-- `performMeiliSearch` (src/ycb.tsx:121-159) as a function of the
client-initialization flag, the query, the awaited index outcome and the
image oracle; returns the new `meiliSearchResults` and the emitted
effects.  A falsy client or a blank query short-circuits to empty results
with no effects. -/
def performMeiliSearch (hasClient : Bool) (query : String)
    (outcome : MeiliOutcome) (imgs : String → Option String) :
    List SearchResult × List Effect :=
  if hasClient = false ∨ jsTrim query.toList = [] then ([], [])
  else
    match outcome with
    | .ok hits =>
      let h := hydrate imgs hits
      (h.1, Effect.meiliQuery "ycb_fts_staging" query 20 :: h.2)
    | .err =>
      ([], [Effect.meiliQuery "ycb_fts_staging" query 20,
            Effect.consoleError "MeiliSearch error:"])

/-- `performSemanticSearch` (src/ycb.tsx:162-212): a blank query
short-circuits; an error outcome logs, shows a failure toast and clears
the semantic results. -/
def performSemanticSearch (query : String) (outcome : SemanticOutcome)
    (imgs : String → Option String) : List SearchResult × List Effect :=
  if jsTrim query.toList = [] then ([], [])
  else
    match outcome with
    | .ok results =>
      let h := hydrate imgs results
      (h.1, Effect.semanticPost query 5 (mkRat 35 100) :: h.2)
    | .httpError =>
      ([], [Effect.semanticPost query 5 (mkRat 35 100),
            Effect.consoleError "Semantic search error:",
            Effect.showToast .failure "Search Error" "Failed to perform semantic search"])

/-- The component state owned by `Command` (src/ycb.tsx:50-55). -/
structure OrchState where
  searchText : String
  semanticResults : List SearchResult
  meiliSearchResults : List SearchResult
  isLoadingMeiliSearch : Bool
  isLoadingSemanticSearch : Bool
deriving DecidableEq

/-- An in-flight network request awaited by one of the two search
functions, keyed by the query text its closure captured. -/
inductive PendingReq where
  | meili (query : String)
  | semantic (query : String)
deriving DecidableEq

/-- Whole-system state: the component state, whether the MeiliSearch
client initialization succeeded (src/ycb.tsx:74-97), and the in-flight
requests (no cancellation exists, so they stay pending until their
completion event). -/
structure SysState where
  hasClient : Bool
  orch : OrchState
  pending : List PendingReq
deriving DecidableEq

/-- Events driving the cooperative scheduling model: the two user inputs
and the completion of an in-flight request (carrying its awaited outcome
and the image oracle used during hydration). -/
inductive Ev where
  | typeText (text : String)
  | triggerSemantic
  | meiliDone (query : String) (outcome : MeiliOutcome) (imgs : String → Option String)
  | semanticDone (query : String) (outcome : SemanticOutcome) (imgs : String → Option String)

/-- One scheduling step.  `typeText` is `handleSearchTextChange`
(src/ycb.tsx:215-223): it stores the text, runs the synchronous prefix of
`performMeiliSearch` (blank or client-less queries clear the lexical
results at once; otherwise the index query goes in flight) and clears
`semanticResults`.  `triggerSemantic` is `handleEnterPress`
(src/ycb.tsx:226-230).  The completion events apply the rest of the
respective search function to the state; they require a matching pending
request and consume it. -/
def step (s : SysState) : Ev → Option (SysState × List Effect)
  | .typeText text =>
    if s.hasClient = true ∧ ¬jsTrim text.toList = [] then
      some ({ s with
                orch := { s.orch with
                            searchText := text,
                            isLoadingMeiliSearch := true,
                            semanticResults := [] },
                pending := s.pending ++ [.meili text] },
            [Effect.meiliQuery "ycb_fts_staging" text 20])
    else
      some ({ s with
                orch := { s.orch with
                            searchText := text,
                            meiliSearchResults := [],
                            semanticResults := [] } },
            [])
  | .triggerSemantic =>
    if ¬jsTrim s.orch.searchText.toList = [] then
      some ({ s with
                orch := { s.orch with isLoadingSemanticSearch := true },
                pending := s.pending ++ [.semantic s.orch.searchText] },
            [Effect.semanticPost s.orch.searchText 5 (mkRat 35 100)])
    else some (s, [])
  | .meiliDone q outcome imgs =>
    if PendingReq.meili q ∈ s.pending then
      match outcome with
      | .ok hits =>
        let h := hydrate imgs hits
        some ({ s with
                  orch := { s.orch with
                              meiliSearchResults := h.1,
                              isLoadingMeiliSearch := false },
                  pending := s.pending.erase (.meili q) },
              h.2)
      | .err =>
        some ({ s with
                  orch := { s.orch with
                              meiliSearchResults := [],
                              isLoadingMeiliSearch := false },
                  pending := s.pending.erase (.meili q) },
              [Effect.consoleError "MeiliSearch error:"])
    else none
  | .semanticDone q outcome imgs =>
    if PendingReq.semantic q ∈ s.pending then
      match outcome with
      | .ok results =>
        let h := hydrate imgs results
        some ({ s with
                  orch := { s.orch with
                              semanticResults := h.1,
                              isLoadingSemanticSearch := false },
                  pending := s.pending.erase (.semantic q) },
              h.2)
      | .httpError =>
        some ({ s with
                  orch := { s.orch with
                              semanticResults := [],
                              isLoadingSemanticSearch := false },
                  pending := s.pending.erase (.semantic q) },
              [Effect.consoleError "Semantic search error:",
               Effect.showToast .failure "Search Error" "Failed to perform semantic search"])
    else none

/-- Runs a sequence of events from a state, discarding effects; `none` if
some event was not enabled. -/
def runEvents (s : SysState) : List Ev → Option SysState
  | [] => some s
  | e :: es =>
    match step s e with
    | some (s1, _) => runEvents s1 es
    | none => none

/-- The initial component state (src/ycb.tsx:50-55) with a successfully
initialized client. -/
def initState : SysState :=
  { hasClient := true,
    orch := { searchText := "", semanticResults := [], meiliSearchResults := [],
              isLoadingMeiliSearch := false, isLoadingSemanticSearch := false },
    pending := [] }

/-- An image oracle under which every `fetchImage` call fails. -/
def imgsNone : String → Option String := fun _ => none

/-- A plain text entry used in concrete scenarios. -/
def entryA : SearchResult := { id := "e1", data := "hello" }

/-- The semantic-results component of an optional system state. -/
def semResultsOf (s : Option SysState) : List SearchResult :=
  match s with
  | some st => st.orch.semanticResults
  | none => []

/-- The search-text component of an optional system state. -/
def searchTextOf (s : Option SysState) : String :=
  match s with
  | some st => st.orch.searchText
  | none => ""

/-! ## Auxiliary lemmas about the string models -/

/-- A list all of whose characters satisfy `p` is emptied by `dropWhile p`. -/
theorem allDropWhile {p : Char → Bool} :
    ∀ {l : List Char}, l.all p = true → l.dropWhile p = [] := by
  intro l
  induction l with
  | nil => intro _; rfl
  | cons a l ih =>
    intro h
    rw [List.all_cons, Bool.and_eq_true] at h
    rw [List.dropWhile_cons]
    simp [h.1, ih h.2]

/-- `trim` of an all-whitespace string is empty. -/
theorem jsTrimOfAll {l : List Char} (h : l.all jsWhitespace = true) :
    jsTrim l = [] := by
  unfold jsTrim
  rw [allDropWhile h]
  rfl

/-- Membership in a `takeWhile` implies the predicate. -/
theorem memTakeWhile {p : Char → Bool} {c : Char} :
    ∀ {l : List Char}, c ∈ l.takeWhile p → p c = true := by
  intro l
  induction l with
  | nil => intro h; exact absurd h (List.not_mem_nil c)
  | cons a l ih =>
    intro h
    rw [List.takeWhile_cons] at h
    split at h
    · next ha =>
      rcases List.mem_cons.mp h with h1 | h2
      · rw [h1]; exact ha
      · exact ih h2
    · exact absurd h (List.not_mem_nil c)

/-- Membership is preserved from `drop` back to the whole list. -/
theorem memDrop {c : Char} : ∀ (n : Nat) {l : List Char}, c ∈ l.drop n → c ∈ l
  | 0, _, h => h
  | _ + 1, [], h => absurd h (List.not_mem_nil c)
  | n + 1, _ :: _, h => List.mem_cons_of_mem _ (memDrop n h)

/-- `removeFirst` never introduces characters. -/
theorem memRemoveFirst {pat : List Char} {c : Char} :
    ∀ {l : List Char}, c ∈ removeFirst pat l → c ∈ l := by
  intro l
  induction l with
  | nil => intro h; exact absurd h (List.not_mem_nil c)
  | cons a l ih =>
    intro h
    unfold removeFirst at h
    split at h
    · exact memDrop _ h
    · rcases List.mem_cons.mp h with h1 | h2
      · rw [h1]; exact List.mem_cons_self a l
      · exact List.mem_cons_of_mem _ (ih h2)

/-- A successful scheme scan shows a colon in the input. -/
theorem schemeSplitColon :
    ∀ (l acc : List Char) (x : List Char × List Char),
      schemeSplit acc l = some x → ':' ∈ l := by
  intro l
  induction l with
  | nil => intro acc x h; exact absurd h (by simp [schemeSplit])
  | cons c cs ih =>
    intro acc x h
    unfold schemeSplit at h
    split at h
    · next hc =>
      have : c = ':' := by simpa using hc
      rw [this]
      exact List.mem_cons_self _ _
    · split at h
      · exact List.mem_cons_of_mem _ (ih _ _ h)
      · exact absurd h (by simp)

/-- A string that parses as a URL contains a colon. -/
theorem urlHostnameColon {l : List Char} {host : List Char}
    (h : urlHostname l = some host) : ':' ∈ l := by
  have hp : ∃ x, parseScheme l = some x := by
    unfold urlHostname at h
    cases hq : parseScheme l with
    | none => rw [hq] at h; exact absurd h (by simp)
    | some x => exact ⟨x, rfl⟩
  obtain ⟨x, hp⟩ := hp
  cases l with
  | nil => simp [parseScheme] at hp
  | cons c cs =>
    simp only [parseScheme] at hp
    by_cases hca : c.isAlpha
    · rw [if_pos hca] at hp
      exact schemeSplitColon _ _ _ hp
    · rw [if_neg hca] at hp
      exact absurd hp (by simp)

/-- Contrapositive: a colon-free string never parses as a URL. -/
theorem urlHostnameNoneOfNoColon {l : List Char} (h : ':' ∉ l) :
    urlHostname l = none := by
  cases hu : urlHostname l with
  | none => rfl
  | some host => exact absurd (urlHostnameColon hu) h

/-- The host produced by the authority parser never contains a colon
(the colon separates the port). -/
theorem hostFromAuthorityNoColon {auth : List Char} {b : Bool} {host : List Char}
    (h : hostFromAuthority auth b = some host) : ':' ∉ host := by
  unfold hostFromAuthority at h
  split at h
  · split at h
    · injection h with h2
      rw [← h2]
      exact List.not_mem_nil ':'
    · cases h
  · split at h
    · cases h
    · split at h
      · injection h with h2
        rw [← h2]
        intro hc
        have := memTakeWhile hc
        simp at this
      · split at h
        · injection h with h2
          rw [← h2]
          intro hc
          have := memTakeWhile hc
          simp at this
        · cases h

/-- The hostname returned by the URL model never contains a colon. -/
theorem urlHostnameNoColon {l host : List Char}
    (h : urlHostname l = some host) : ':' ∉ host := by
  unfold urlHostname at h
  split at h
  · exact absurd h (by simp)
  · split at h
    · unfold parseSpecialHost at h
      exact hostFromAuthorityNoColon h
    · unfold parseNonSpecialHost at h
      split at h
      · exact hostFromAuthorityNoColon h
      · cases h; exact List.not_mem_nil ':'

/-- Evaluation of the label derivation when no arm applies: non-empty
input, no domain hit, no URL parse, not longer than 30 characters. -/
theorem sourceLabelLId {a : List Char} (h0 : ¬a = [])
    (hy : containsSub ycbL a = false) (hu : urlHostname a = none)
    (hs : ¬30 < a.length) : sourceLabelL a = a := by
  unfold sourceLabelL
  rw [if_neg h0, if_neg (by simp [hy]), hu]
  exact if_neg hs

/-- Key property behind the amended claim C2: the label derivation is
idempotent whenever its output is at most 30 characters long and does not
contain the knowledge base's own domain. -/
theorem labelIdem (l : List Char)
    (hlen : (sourceLabelL l).length ≤ 30)
    (hycb : containsSub ycbL (sourceLabelL l) = false) :
    sourceLabelL (sourceLabelL l) = sourceLabelL l := by
  by_cases h0 : l = []
  · rw [h0]; decide
  · by_cases hy : containsSub ycbL l = true
    · have hl : sourceLabelL l = "Your Commonbase".toList := by
        unfold sourceLabelL
        rw [if_neg h0]
        exact if_pos hy
      rw [hl]; decide
    · rw [Bool.not_eq_true] at hy
      cases hu : urlHostname l with
      | some host =>
        have hl : sourceLabelL l = removeFirst "www.".toList host := by
          unfold sourceLabelL
          rw [if_neg h0, if_neg (by simp [hy]), hu]
        have hcol : ':' ∉ host := urlHostnameNoColon hu
        have hcol2 : ':' ∉ removeFirst "www.".toList host :=
          fun hc => hcol (memRemoveFirst hc)
        have hnone : urlHostname (removeFirst "www.".toList host) = none :=
          urlHostnameNoneOfNoColon hcol2
        rw [hl] at hlen hycb ⊢
        by_cases hz : removeFirst "www.".toList host = []
        · rw [hz]; decide
        · exact sourceLabelLId hz hycb hnone (Nat.not_lt.mpr hlen)
      | none =>
        by_cases hlong : 30 < l.length
        · exfalso
          have hl : sourceLabelL l = l.take 30 ++ "...".toList := by
            unfold sourceLabelL
            rw [if_neg h0, if_neg (by simp [hy]), hu]
            exact if_pos hlong
          rw [hl] at hlen
          have h3 : ("...".toList).length = 3 := by decide
          rw [List.length_append, List.length_take, h3] at hlen
          omega
        · have hl : sourceLabelL l = l := sourceLabelLId h0 hy hu hlong
          rw [hl]
          exact hl

/-- The two faithful label functions coincide once the redundant empty
guard is folded away; this equates the code with the amended spec text. -/
theorem labelAmendedEq (a : List Char) :
    sourceLabelL a = specLabelAmendedL a := by
  by_cases h0 : a = []
  · rw [h0]; decide
  · simp [sourceLabelL, specLabelAmendedL, h0]

/-! ## Claims C1 - C3 -/

/-- Claim C1 (corrected), counterexample: for the author
`https://foo.www.bar.com/x` the code removes the first occurrence of
`www.` anywhere in the hostname and renders `foo.bar.com`, while the
claim's "hostname with a leading `www.` stripped" renders
`foo.www.bar.com`. -/
theorem c1_counterexample :
    getMetadataDisplay { author := some "https://foo.www.bar.com/x" } ≠
      specSourceLabel { author := some "https://foo.www.bar.com/x" } ∧
    getMetadataDisplay { author := some "https://foo.www.bar.com/x" } = "foo.bar.com" ∧
    specSourceLabel { author := some "https://foo.www.bar.com/x" } = "foo.www.bar.com" := by
  decide

/-- Claim C1 as amended: the displayed source label equals the spec
derivation in which the domain check comes first, a parsed hostname has
its first occurrence of `www.` (anywhere) removed, and a non-URL author
is returned unchanged unless longer than 30 characters, in which case it
is truncated with an ellipsis marker. -/
theorem c1_amended_label_matches_spec (m : Metadata) :
    getMetadataDisplay m = specSourceLabelAmended m := by
  cases hm : m.author with
  | none =>
    show String.mk (sourceLabelL ((m.author.getD "").toList)) = _
    rw [hm]
    simp [specSourceLabelAmended, hm]
    rfl
  | some a =>
    show String.mk (sourceLabelL ((m.author.getD "").toList)) = _
    rw [hm]
    simp only [specSourceLabelAmended, hm, Option.getD_some]
    rw [labelAmendedEq]

/-- Claim C2 (corrected), counterexample: a parsed hostname longer than
30 characters is truncated by a second application of the derivation, so
the derivation is not idempotent. -/
theorem c2_counterexample :
    sourceLabel (sourceLabel "https://aaaaaaaaaaaaaaaaaaaaaaaaaaaaaaa.com/") ≠
      sourceLabel "https://aaaaaaaaaaaaaaaaaaaaaaaaaaaaaaa.com/" ∧
    sourceLabel "https://aaaaaaaaaaaaaaaaaaaaaaaaaaaaaaa.com/" =
      "aaaaaaaaaaaaaaaaaaaaaaaaaaaaaaa.com" ∧
    sourceLabel (sourceLabel "https://aaaaaaaaaaaaaaaaaaaaaaaaaaaaaaa.com/") =
      "aaaaaaaaaaaaaaaaaaaaaaaaaaaaaa..." := by
  decide

/-- Claim C2 as amended: the source-label derivation is idempotent on
every input whose derived label is at most 30 characters long and does
not contain the knowledge base's own domain. -/
theorem c2_amended_idempotent_on_short_labels (a : String)
    (hlen : (sourceLabel a).toList.length ≤ 30)
    (hycb : containsSub ycbL (sourceLabel a).toList = false) :
    sourceLabel (sourceLabel a) = sourceLabel a :=
  congrArg String.mk (labelIdem a.toList hlen hycb)

/-- Witness for the amended claim C2 at the spec's own scenario input. -/
theorem c2_amended_witness :
    (sourceLabel "https://www.example.com/page").toList.length ≤ 30 ∧
    containsSub ycbL (sourceLabel "https://www.example.com/page").toList = false ∧
    sourceLabel (sourceLabel "https://www.example.com/page") =
      sourceLabel "https://www.example.com/page" :=
  ⟨by decide, by decide,
   c2_amended_idempotent_on_short_labels "https://www.example.com/page"
     (by decide) (by decide)⟩

/-- Claim C3 (confirmed): on a blank or all-whitespace query, both search
operations yield empty results and emit no effect at all — in particular
no network call. -/
theorem c3_blank_queries_no_network (hasClient : Bool) (q : String)
    (mo : MeiliOutcome) (so : SemanticOutcome) (imgs : String → Option String)
    (h : q.toList.all jsWhitespace = true) :
    performMeiliSearch hasClient q mo imgs = ([], []) ∧
    performSemanticSearch q so imgs = ([], []) := by
  have ht : jsTrim q.toList = [] := jsTrimOfAll h
  constructor
  · unfold performMeiliSearch
    rw [if_pos (Or.inr ht)]
  · unfold performSemanticSearch
    rw [if_pos ht]

/-- Witness for claim C3 on the whitespace query consisting of spaces and
a tab. -/
theorem c3_witness :
    " \t ".toList.all jsWhitespace = true ∧
    performMeiliSearch true " \t " (.ok [entryA]) imgsNone = ([], []) ∧
    performSemanticSearch " \t " .httpError imgsNone = ([], []) :=
  ⟨by decide,
   (c3_blank_queries_no_network true " \t " (.ok [entryA]) .httpError imgsNone (by decide)).1,
   (c3_blank_queries_no_network true " \t " (.ok [entryA]) .httpError imgsNone (by decide)).2⟩

/-! ## Claims C4, C5, C9: the orchestrator step model -/

/-- The lexical-results component of an optional system state. -/
def meiliResultsOf (s : Option SysState) : List SearchResult :=
  match s with
  | some st => st.orch.meiliSearchResults
  | none => []

/-- The post-state of one step, forgetting the effects. -/
def stateOfStep (s : SysState) (e : Ev) : Option SysState :=
  match step s e with
  | some (s1, _) => some s1
  | none => none

/-- The effects of one step (empty when the event is not enabled). -/
def effectsOfStep (s : SysState) (e : Ev) : List Effect :=
  match step s e with
  | some (_, effs) => effs
  | none => []

/-- A second plain text entry used in concrete scenarios. -/
def entryB : SearchResult := { id := "e2", data := "world" }

/-- Claim C4 (confirmed): completion of an in-flight semantic request
with the uniform error outcome (modelling any non-2xx status regardless
of status code or body, as well as transport failure) shows the failure
toast, empties `semanticResults` and leaves the lexical results
untouched. -/
theorem c4_semantic_error_path (s : SysState) (q : String)
    (imgs : String → Option String) (h : PendingReq.semantic q ∈ s.pending) :
    (stateOfStep s (.semanticDone q .httpError imgs)).isSome = true ∧
    semResultsOf (stateOfStep s (.semanticDone q .httpError imgs)) = [] ∧
    meiliResultsOf (stateOfStep s (.semanticDone q .httpError imgs)) =
      s.orch.meiliSearchResults ∧
    Effect.showToast .failure "Search Error" "Failed to perform semantic search" ∈
      effectsOfStep s (.semanticDone q .httpError imgs) := by
  have hstep : step s (.semanticDone q .httpError imgs) =
      some ({ s with
                orch := { s.orch with
                            semanticResults := [],
                            isLoadingSemanticSearch := false },
                pending := s.pending.erase (.semantic q) },
            [Effect.consoleError "Semantic search error:",
             Effect.showToast .failure "Search Error" "Failed to perform semantic search"]) := by
    simp only [step]
    rw [if_pos h]
  refine ⟨?_, ?_, ?_, ?_⟩ <;>
    simp [stateOfStep, semResultsOf, meiliResultsOf, effectsOfStep, hstep]

/-- Witness for claim C4: a state showing one lexical and one semantic
result, with the semantic request for "q" still pending. -/
def c4State : SysState :=
  { hasClient := true,
    orch := { searchText := "q", semanticResults := [entryA],
              meiliSearchResults := [entryB],
              isLoadingMeiliSearch := false, isLoadingSemanticSearch := true },
    pending := [.semantic "q"] }

/-- Witness for claim C4 at a concrete state. -/
theorem c4_witness :
    (stateOfStep c4State (.semanticDone "q" .httpError imgsNone)).isSome = true ∧
    semResultsOf (stateOfStep c4State (.semanticDone "q" .httpError imgsNone)) = [] ∧
    meiliResultsOf (stateOfStep c4State (.semanticDone "q" .httpError imgsNone)) =
      c4State.orch.meiliSearchResults ∧
    Effect.showToast .failure "Search Error" "Failed to perform semantic search" ∈
      effectsOfStep c4State (.semanticDone "q" .httpError imgsNone) :=
  c4_semantic_error_path c4State "q" imgsNone (by decide)

/-- Claim C9 (confirmed): completion of an in-flight lexical request with
an error logs a diagnostic, clears the lexical results, and emits no
toast of any kind — silent degradation, unlike the semantic error path. -/
theorem c9_lexical_error_silent (s : SysState) (q : String)
    (imgs : String → Option String) (h : PendingReq.meili q ∈ s.pending) :
    (stateOfStep s (.meiliDone q .err imgs)).isSome = true ∧
    meiliResultsOf (stateOfStep s (.meiliDone q .err imgs)) = [] ∧
    effectsOfStep s (.meiliDone q .err imgs) =
      [Effect.consoleError "MeiliSearch error:"] ∧
    (∀ st ti me, Effect.showToast st ti me ∉ effectsOfStep s (.meiliDone q .err imgs)) := by
  have hstep : step s (.meiliDone q .err imgs) =
      some ({ s with
                orch := { s.orch with
                            meiliSearchResults := [],
                            isLoadingMeiliSearch := false },
                pending := s.pending.erase (.meili q) },
            [Effect.consoleError "MeiliSearch error:"]) := by
    simp only [step]
    rw [if_pos h]
  refine ⟨?_, ?_, ?_, ?_⟩ <;>
    simp [stateOfStep, meiliResultsOf, effectsOfStep, hstep]

/-- Witness for claim C9: a state with the lexical request for "q"
pending. -/
def c9State : SysState :=
  { hasClient := true,
    orch := { searchText := "q", semanticResults := [], meiliSearchResults := [entryB],
              isLoadingMeiliSearch := true, isLoadingSemanticSearch := false },
    pending := [.meili "q"] }

/-- Witness for claim C9 at a concrete state. -/
theorem c9_witness :
    (stateOfStep c9State (.meiliDone "q" .err imgsNone)).isSome = true ∧
    meiliResultsOf (stateOfStep c9State (.meiliDone "q" .err imgsNone)) = [] ∧
    effectsOfStep c9State (.meiliDone "q" .err imgsNone) =
      [Effect.consoleError "MeiliSearch error:"] :=
  ⟨(c9_lexical_error_silent c9State "q" imgsNone (by decide)).1,
   (c9_lexical_error_silent c9State "q" imgsNone (by decide)).2.1,
   (c9_lexical_error_silent c9State "q" imgsNone (by decide)).2.2.1⟩

/-- Claim C5 (corrected), counterexample: the user types "q", triggers a
semantic search, resumes typing ("qu", which clears `semanticResults`),
and only then does the still-pending semantic request for the stale query
"q" complete — repopulating `semanticResults` while the search text is
already "qu".  A state displaying a stale semantic result set after the
user resumed typing is therefore reachable, refuting the claim's "no
state is reachable" parenthetical (there is no request cancellation). -/
theorem c5_counterexample :
    semResultsOf (runEvents initState
      [Ev.typeText "q", Ev.triggerSemantic, Ev.typeText "qu",
       Ev.semanticDone "q" (.ok [entryA]) imgsNone]) = [entryA] ∧
    searchTextOf (runEvents initState
      [Ev.typeText "q", Ev.triggerSemantic, Ev.typeText "qu",
       Ev.semanticDone "q" (.ok [entryA]) imgsNone]) = "qu" := by
  decide

/-- Claim C5 as amended: every query-text change clears `semanticResults`
within the same synchronous step — before the newly issued lexical query
can resolve — and the resolution of a lexical query never writes
`semanticResults`; stale semantic results can only reappear through a
still-pending semantic request (no cancellation exists). -/
theorem c5_amended_typing_clears_semantic (s : SysState) (text q : String)
    (out : MeiliOutcome) (imgs : String → Option String) :
    (stateOfStep s (.typeText text)).isSome = true ∧
    semResultsOf (stateOfStep s (.typeText text)) = [] ∧
    (∀ s1 effs, step s (.meiliDone q out imgs) = some (s1, effs) →
      s1.orch.semanticResults = s.orch.semanticResults) := by
  refine ⟨?_, ?_, ?_⟩
  · unfold stateOfStep
    simp only [step]
    by_cases hc : s.hasClient = true ∧ ¬jsTrim text.toList = []
    · rw [if_pos hc]; rfl
    · rw [if_neg hc]; rfl
  · unfold semResultsOf stateOfStep
    simp only [step]
    by_cases hc : s.hasClient = true ∧ ¬jsTrim text.toList = []
    · rw [if_pos hc]
    · rw [if_neg hc]
  · intro s1 effs hst
    by_cases hmem : PendingReq.meili q ∈ s.pending
    · cases out with
      | ok hits =>
        have hstep : step s (.meiliDone q (.ok hits) imgs) =
            some ({ s with
                      orch := { s.orch with
                                  meiliSearchResults := (hydrate imgs hits).1,
                                  isLoadingMeiliSearch := false },
                      pending := s.pending.erase (.meili q) },
                  (hydrate imgs hits).2) := by
          simp only [step]
          rw [if_pos hmem]
        rw [hstep] at hst
        simp only [Option.some.injEq, Prod.mk.injEq] at hst
        rw [← hst.1]
      | err =>
        have hstep : step s (.meiliDone q .err imgs) =
            some ({ s with
                      orch := { s.orch with
                                  meiliSearchResults := [],
                                  isLoadingMeiliSearch := false },
                      pending := s.pending.erase (.meili q) },
                  [Effect.consoleError "MeiliSearch error:"]) := by
          simp only [step]
          rw [if_pos hmem]
        rw [hstep] at hst
        simp only [Option.some.injEq, Prod.mk.injEq] at hst
        rw [← hst.1]
    · have hstep : step s (.meiliDone q out imgs) = none := by
        simp only [step]
        rw [if_neg hmem]
      rw [hstep] at hst
      cases hst

/-- Witness state for the amended claim C5: semantic results are shown
and a lexical request for "q" is pending. -/
def c5State : SysState :=
  { hasClient := true,
    orch := { searchText := "q", semanticResults := [entryA], meiliSearchResults := [],
              isLoadingMeiliSearch := true, isLoadingSemanticSearch := false },
    pending := [.meili "q"] }

/-- The state after the pending lexical request of `c5State` completes. -/
def c5Done : SysState :=
  { hasClient := true,
    orch := { searchText := "q", semanticResults := [entryA],
              meiliSearchResults := [entryB],
              isLoadingMeiliSearch := false, isLoadingSemanticSearch := false },
    pending := [] }

/-- Witness for the amended claim C5 at a concrete state. -/
theorem c5_amended_witness :
    (stateOfStep c5State (.typeText "new")).isSome = true ∧
    semResultsOf (stateOfStep c5State (.typeText "new")) = [] ∧
    c5Done.orch.semanticResults = c5State.orch.semanticResults :=
  ⟨(c5_amended_typing_clears_semantic c5State "new" "q" (.ok [entryB]) imgsNone).1,
   (c5_amended_typing_clears_semantic c5State "new" "q" (.ok [entryB]) imgsNone).2.1,
   (c5_amended_typing_clears_semantic c5State "new" "q" (.ok [entryB]) imgsNone).2.2
     c5Done [] (by decide)⟩

/-! ## Claim C6: image hydration -/

/-- Hydration leaves a non-image entry unchanged at its position. -/
theorem hydrateKeepsNonImage (imgs : String → Option String)
    (rs : List SearchResult) (i : Nat) (r : SearchResult)
    (hr : rs[i]? = some r) (ht : ¬r.metadata.type = some "image") :
    (hydrate imgs rs).1[i]? = some r := by
  unfold hydrate
  rw [List.getElem?_map, hr]
  show some ((hydrateEntry imgs r).1) = some r
  unfold hydrateEntry
  rw [if_neg ht]

/-- Every Image Resolver effect of a hydration originates from an
image-typed entry of the batch and carries exactly that entry's id. -/
theorem hydrateEffectsFromImages (imgs : String → Option String)
    (rs : List SearchResult) (e : Effect) (he : e ∈ (hydrate imgs rs).2)
    (ids : List String) (hei : e = Effect.fetchImagesByIDs ids) :
    ∃ r, r ∈ rs ∧ r.metadata.type = some "image" ∧ ids = [r.id] := by
  unfold hydrate at he
  rw [List.mem_flatMap] at he
  obtain ⟨r, hr, he2⟩ := he
  refine ⟨r, hr, ?_⟩
  unfold hydrateEntry at he2
  by_cases ht : r.metadata.type = some "image"
  · rw [if_pos ht] at he2
    simp only [List.mem_singleton] at he2
    rw [hei] at he2
    refine ⟨ht, ?_⟩
    injection he2.symm with h2
    exact h2.symm
  · rw [if_neg ht] at he2
    exact absurd he2 (List.not_mem_nil e)

/-- Claim C6 (confirmed): in both result pipelines, an entry whose
metadata type is not `"image"` passes through hydration unchanged — its
`image` field is never populated — and every Image Resolver call among
the emitted effects is for an image-typed entry of its batch, with
exactly that entry's id. -/
theorem c6_images_only_for_image_entries (q : String)
    (imgs : String → Option String) (hits results : List SearchResult)
    (hq : ¬jsTrim q.toList = []) :
    (∀ (i : Nat) (r : SearchResult), hits[i]? = some r →
      ¬r.metadata.type = some "image" →
      (performMeiliSearch true q (.ok hits) imgs).1[i]? = some r) ∧
    (∀ e, e ∈ (performMeiliSearch true q (.ok hits) imgs).2 →
      ∀ ids, e = Effect.fetchImagesByIDs ids →
        ∃ r, r ∈ hits ∧ r.metadata.type = some "image" ∧ ids = [r.id]) ∧
    (∀ (i : Nat) (r : SearchResult), results[i]? = some r →
      ¬r.metadata.type = some "image" →
      (performSemanticSearch q (.ok results) imgs).1[i]? = some r) ∧
    (∀ e, e ∈ (performSemanticSearch q (.ok results) imgs).2 →
      ∀ ids, e = Effect.fetchImagesByIDs ids →
        ∃ r, r ∈ results ∧ r.metadata.type = some "image" ∧ ids = [r.id]) := by
  have hq2 : ¬jsTrim q.data = [] := hq
  have hm : performMeiliSearch true q (.ok hits) imgs =
      ((hydrate imgs hits).1,
       Effect.meiliQuery "ycb_fts_staging" q 20 :: (hydrate imgs hits).2) := by
    unfold performMeiliSearch
    rw [if_neg (by simp [hq2])]
  have hs : performSemanticSearch q (.ok results) imgs =
      ((hydrate imgs results).1,
       Effect.semanticPost q 5 (mkRat 35 100) :: (hydrate imgs results).2) := by
    unfold performSemanticSearch
    rw [if_neg hq]
  refine ⟨?_, ?_, ?_, ?_⟩
  · intro i r hr ht
    rw [hm]
    exact hydrateKeepsNonImage imgs hits i r hr ht
  · intro e he ids hei
    rw [hm] at he
    rcases List.mem_cons.mp he with h1 | h2
    · rw [h1] at hei
      exact absurd hei (by simp)
    · exact hydrateEffectsFromImages imgs hits e h2 ids hei
  · intro i r hr ht
    rw [hs]
    exact hydrateKeepsNonImage imgs results i r hr ht
  · intro e he ids hei
    rw [hs] at he
    rcases List.mem_cons.mp he with h1 | h2
    · rw [h1] at hei
      exact absurd hei (by simp)
    · exact hydrateEffectsFromImages imgs results e h2 ids hei

/-- An image-typed entry used in concrete scenarios. -/
def entryImg : SearchResult :=
  { id := "i1", data := "img", metadata := { type := some "image" } }

/-- Witness for claim C6: in a lexical batch `[entryImg, entryA]` the
non-image entry passes through hydration unchanged, and likewise in a
semantic batch `[entryA]`. -/
theorem c6_witness :
    (performMeiliSearch true "x" (.ok [entryImg, entryA]) imgsNone).1[1]? = some entryA ∧
    (performSemanticSearch "x" (.ok [entryA]) imgsNone).1[0]? = some entryA :=
  ⟨(c6_images_only_for_image_entries "x" imgsNone [entryImg, entryA] [entryA]
      (by decide)).1 1 entryA (by decide) (by decide),
   (c6_images_only_for_image_entries "x" imgsNone [entryImg, entryA] [entryA]
      (by decide)).2.2.1 0 entryA (by decide) (by decide)⟩

/-! ## Claim C8: displayed title and subtitle -/

/-- Title derivation following the spec claim C8 word for word:
`metadata.title` is used whenever present. -/
def specTitle (r : SearchResult) : String :=
  match r.metadata.title with
  | some t => t
  | none => String.mk (r.data.toList.take 60 ++ "...".toList)

/-- Subtitle derivation following the spec claim C8 word for word:
`metadata.ogDescription` is used whenever present. -/
def specSubtitle (r : SearchResult) : String :=
  match r.metadata.ogDescription with
  | some d => d
  | none => String.mk (r.data.toList.take 100 ++ "...".toList)

/-- An entry with a present-but-empty title, on which claim C8 and the
code diverge. -/
def c8Entry : SearchResult :=
  { id := "e", data := "hello world", metadata := { title := some "" } }

/-- Claim C8 (corrected), counterexample: the code renders titles with
the JavaScript expression `metadata?.title || data.substring(0, 60) + "..."`,
whose `||` treats a present-but-empty title as absent; the claim's
"metadata.title if present" keeps the empty string. -/
theorem c8_counterexample :
    displayTitle c8Entry ≠ specTitle c8Entry ∧
    displayTitle c8Entry = "hello world..." ∧
    specTitle c8Entry = "" := by
  decide

/-- Claim C8 as amended: the title is `metadata.title` if present and
non-empty, and otherwise the first 60 characters of `data` followed by an
ellipsis marker; the subtitle is `metadata.ogDescription` if present and
non-empty, and otherwise the first 100 characters of `data` followed by
an ellipsis marker. -/
theorem c8_amended_title_subtitle (r : SearchResult) :
    (∀ t, r.metadata.title = some t → ¬t = "" → displayTitle r = t) ∧
    ((r.metadata.title = none ∨ r.metadata.title = some "") →
      displayTitle r = String.mk (r.data.toList.take 60 ++ "...".toList)) ∧
    (∀ d, r.metadata.ogDescription = some d → ¬d = "" → displaySubtitle r = d) ∧
    ((r.metadata.ogDescription = none ∨ r.metadata.ogDescription = some "") →
      displaySubtitle r = String.mk (r.data.toList.take 100 ++ "...".toList)) := by
  refine ⟨?_, ?_, ?_, ?_⟩
  · intro t ht hne
    unfold displayTitle jsOrElse
    rw [ht]
    exact if_neg hne
  · intro h
    unfold displayTitle jsOrElse
    rcases h with h | h <;> rw [h]
    exact if_pos rfl
  · intro d hd hne
    unfold displaySubtitle jsOrElse
    rw [hd]
    exact if_neg hne
  · intro h
    unfold displaySubtitle jsOrElse
    rcases h with h | h <;> rw [h]
    exact if_pos rfl

/-- An entry with a non-empty title and no description, witnessing the
amended claim C8. -/
def c8WitnessEntry : SearchResult :=
  { id := "w", data := "some content", metadata := { title := some "T" } }

/-- Witness for the amended claim C8 at a concrete entry. -/
theorem c8_amended_witness :
    displayTitle c8WitnessEntry = "T" ∧
    displaySubtitle c8WitnessEntry =
      String.mk (c8WitnessEntry.data.toList.take 100 ++ "...".toList) :=
  ⟨(c8_amended_title_subtitle c8WitnessEntry).1 "T" rfl (by decide),
   (c8_amended_title_subtitle c8WitnessEntry).2.2.2 (Or.inl rfl)⟩

/-! ## Claims C7 and C10: the entry URL -/

/-- A pattern is an initial segment of itself followed by anything. -/
theorem startsWithAppend : ∀ (l r : List Char), startsWith l (l ++ r) = true
  | [], _ => rfl
  | c :: cs, r => by
    show (c == c && startsWith cs (cs ++ r)) = true
    rw [startsWithAppend cs r]
    simp

/-- An initial occurrence survives a long enough `take`. -/
theorem startsWithTake :
    ∀ (pat l : List Char) (k : Nat), startsWith pat l = true →
      pat.length ≤ k → startsWith pat (l.take k) = true
  | [], _, _, _, _ => rfl
  | p :: ps, [], _, h, _ => absurd h (by simp [startsWith])
  | p :: ps, c :: cs, k, h, hk => by
    cases k with
    | zero => exact absurd hk (by simp)
    | succ k2 =>
      show (p == c && startsWith ps (cs.take k2)) = true
      have h2 : (p == c && startsWith ps cs) = true := h
      rw [Bool.and_eq_true] at h2
      rw [Bool.and_eq_true]
      exact ⟨h2.1, startsWithTake ps cs k2 h2.2 (Nat.le_of_succ_le_succ hk)⟩

/-- An initial occurrence is an occurrence. -/
theorem startsWithContains :
    ∀ (pat l : List Char), startsWith pat l = true → containsSub pat l = true
  | pat, [], h => by
    cases pat with
    | nil => rfl
    | cons p ps => exact absurd h (by simp [startsWith])
  | pat, c :: cs, h => by
    show (startsWith pat (c :: cs) || containsSub pat cs) = true
    rw [h]
    rfl

/-- Decomposition of a failed containment at a cons cell. -/
theorem containsTailFalse {pat : List Char} {c : Char} {l : List Char}
    (h : containsSub pat (c :: l) = false) :
    startsWith pat (c :: l) = false ∧ containsSub pat l = false := by
  have h2 : (startsWith pat (c :: l) || containsSub pat l) = false := h
  rw [Bool.or_eq_false_iff] at h2
  exact h2

/-- A pattern that does not occur is not removed. -/
theorem removeFirstNoOcc {pat : List Char} :
    ∀ {l : List Char}, containsSub pat l = false → removeFirst pat l = l := by
  intro l
  induction l with
  | nil => intro _; rfl
  | cons c r ih =>
    intro h
    obtain ⟨h1, h2⟩ := containsTailFalse h
    show (if startsWith pat (c :: r) then (c :: r).drop pat.length
          else c :: removeFirst pat r) = c :: r
    rw [if_neg (by simp [h1]), ih h2]

/-- Deletion at the first occurrence: if the pattern does not occur
starting before position `p.length` (no occurrence fits inside
`p ++ pat.dropLast`), then `removeFirst` removes exactly the middle copy
and keeps everything else. -/
theorem removeFirstAt (pat : List Char) (hpat : ¬pat = []) :
    ∀ (p q : List Char), containsSub pat (p ++ pat.dropLast) = false →
      removeFirst pat (p ++ pat ++ q) = p ++ q := by
  intro p
  induction p with
  | nil =>
    intro q _
    show removeFirst pat (pat ++ q) = q
    cases hpc : pat with
    | nil => exact absurd hpc hpat
    | cons b bs =>
      show (if startsWith (b :: bs) (b :: (bs ++ q))
            then (b :: (bs ++ q)).drop (b :: bs).length
            else b :: removeFirst (b :: bs) (bs ++ q)) = q
      rw [if_pos (show startsWith (b :: bs) (b :: (bs ++ q)) = true from
        startsWithAppend (b :: bs) q)]
      exact List.drop_left (b :: bs) q
  | cons c p2 ih =>
    intro q hfirst
    have hpl : 1 ≤ pat.length := by
      cases pat with
      | nil => exact absurd rfl hpat
      | cons x xs => simp
    have hsw : startsWith pat (c :: (p2 ++ pat ++ q)) = false := by
      by_contra hcon
      rw [Bool.not_eq_false] at hcon
      have hcl : (c :: p2).length = p2.length + 1 := by simp
      have hk : pat.length ≤ (c :: p2).length + (pat.length - 1) := by omega
      have htake := startsWithTake pat (c :: (p2 ++ pat ++ q))
        ((c :: p2).length + (pat.length - 1)) hcon hk
      have heq : (c :: (p2 ++ pat ++ q)).take ((c :: p2).length + (pat.length - 1)) =
          (c :: p2) ++ pat.dropLast := by
        have e1 : c :: (p2 ++ pat ++ q) = (c :: p2) ++ (pat ++ q) := by
          simp [List.append_assoc]
        rw [e1, List.take_append]
        congr 1
        rw [List.take_append_of_le_length (by omega)]
        rw [List.dropLast_eq_take]
      rw [heq] at htake
      have hcontains := startsWithContains pat ((c :: p2) ++ pat.dropLast) htake
      rw [hfirst] at hcontains
      cases hcontains
    show (if startsWith pat (c :: (p2 ++ pat ++ q))
          then (c :: (p2 ++ pat ++ q)).drop pat.length
          else c :: removeFirst pat (p2 ++ pat ++ q)) = (c :: p2) ++ q
    rw [if_neg (by rw [hsw]; simp)]
    have hfirst2 : containsSub pat (p2 ++ pat.dropLast) = false := by
      have h3 : containsSub pat (c :: (p2 ++ pat.dropLast)) = false := by
        have e2 : (c :: p2) ++ pat.dropLast = c :: (p2 ++ pat.dropLast) := rfl
        rw [e2] at hfirst
        exact hfirst
      exact (containsTailFalse h3).2
    rw [ih q hfirst2]
    rfl

/-- Claim C7 (confirmed): the computed display URL is the configured base
URL with the backend path segment removed and the dashboard path segment
put in, followed by `/entry/` and the id — so the result always contains
the entry's id verbatim as its trailing path component. -/
theorem c7_entry_url_contains_id (u id : String) :
    getEntryUrl u id =
      String.mk (removeFirst "/backend".toList u.toList ++ "/dashboard".toList) ++
        "/entry/" ++ id ∧
    ∃ pre : List Char,
      (getEntryUrl u id).toList = pre ++ ("/entry/".toList ++ id.toList) := by
  constructor
  · show String.mk (removeFirst "/backend".toList u.toList ++
        "/dashboard/entry/".toList ++ id.toList) =
      String.mk (((removeFirst "/backend".toList u.toList ++ "/dashboard".toList) ++
        "/entry/".toList) ++ id.toList)
    have h1 : ("/dashboard/entry/".toList : List Char) =
        "/dashboard".toList ++ "/entry/".toList := by decide
    rw [h1]
    simp [List.append_assoc]
  · refine ⟨removeFirst "/backend".toList u.toList ++ "/dashboard".toList, ?_⟩
    show removeFirst "/backend".toList u.toList ++
        "/dashboard/entry/".toList ++ id.toList = _
    have h1 : ("/dashboard/entry/".toList : List Char) =
        "/dashboard".toList ++ "/entry/".toList := by decide
    rw [h1]
    simp [List.append_assoc]

/-- Claim C10 (confirmed): the entry URL is the configured base URL with
only the first occurrence of `/backend` deleted (nothing substituted in
its place), followed by `/dashboard/entry/` and the id; a base URL
without `/backend` is used unchanged; and the result always ends with
`/entry/` followed by the id. -/
theorem c10_entry_url_construction (u id : String) :
    (containsSub "/backend".toList u.toList = false →
      getEntryUrl u id = u ++ "/dashboard/entry/" ++ id) ∧
    (∀ p q : List Char, u.toList = p ++ "/backend".toList ++ q →
      containsSub "/backend".toList (p ++ "/backen".toList) = false →
      (getEntryUrl u id).toList = p ++ q ++ "/dashboard/entry/".toList ++ id.toList) ∧
    (∃ pre : List Char,
      (getEntryUrl u id).toList = pre ++ "/entry/".toList ++ id.toList) := by
  refine ⟨?_, ?_, ?_⟩
  · intro h
    show String.mk (removeFirst "/backend".toList u.toList ++
        "/dashboard/entry/".toList ++ id.toList) = u ++ "/dashboard/entry/" ++ id
    rw [removeFirstNoOcc h]
    rfl
  · intro p q hu hfirst
    show removeFirst "/backend".toList u.toList ++
        "/dashboard/entry/".toList ++ id.toList =
      p ++ q ++ "/dashboard/entry/".toList ++ id.toList
    rw [hu]
    have hdl : ("/backend".toList : List Char).dropLast = "/backen".toList := by decide
    rw [removeFirstAt "/backend".toList (by decide) p q (by rw [hdl]; exact hfirst)]
  · refine ⟨removeFirst "/backend".toList u.toList ++ "/dashboard".toList, ?_⟩
    show removeFirst "/backend".toList u.toList ++
        "/dashboard/entry/".toList ++ id.toList = _
    have h1 : ("/dashboard/entry/".toList : List Char) =
        "/dashboard".toList ++ "/entry/".toList := by decide
    rw [h1]
    simp [List.append_assoc]

/-- Witness for claim C10 at the spec's default base URL (which ends in
the backend segment) and a concrete id. -/
theorem c10_witness :
    (getEntryUrl "https://yourcommonbase.com/backend" "abc123").toList =
      "https://yourcommonbase.com".toList ++ [] ++
        "/dashboard/entry/".toList ++ "abc123".toList :=
  (c10_entry_url_construction "https://yourcommonbase.com/backend" "abc123").2.1
    "https://yourcommonbase.com".toList [] (by decide) (by decide)

end YCB
